import Mathlib

/-!
# Verification of the GeoG scrape-and-quiz pipeline

Shallow embedding of `src/main.py`: slug normalization (`slugify`), markup
extraction (`parse_country`), dataset building (`scrape`), snapshot loading
(`load_data`), and the quiz state machine (`run_quiz`), together with theorems
about the specified properties.

Python strings are modelled as Lean `String` / `List Char`; `dict` values as
association lists with Python assignment semantics; exceptions as `Except`.
-/

/-- Python whitespace for `str.strip` and the regex class `\s`
(ASCII part: space, tab, newline, carriage return, vertical tab, form feed). -/
def isPySpace (c : Char) : Bool :=
  c == ' ' || c == '\t' || c == '\n' || c == '\r' || c == '\x0b' || c == '\x0c'

/-- Python `str.strip()` on a character list. -/
def pyStrip (cs : List Char) : List Char :=
  ((cs.dropWhile isPySpace).reverse.dropWhile isPySpace).reverse

/-- Python `str.strip()` on a string. -/
def pyStripS (s : String) : String := String.mk (pyStrip s.toList)

/-- Python `str.lower()` restricted to the alphabet occurring in this program:
ASCII letters plus the uppercase forms of the accented letters that appear in
`SPECIAL_SLUGS` and the fallback transliteration table. -/
def pyLowerChar (c : Char) : Char :=
  if 'A' ≤ c ∧ c ≤ 'Z' then Char.ofNat (c.toNat + 32)
  else match c with
  | 'Ç' => 'ç' | 'É' => 'é' | 'È' => 'è' | 'Ê' => 'ê' | 'Á' => 'á' | 'À' => 'à'
  | 'Ü' => 'ü' | 'Ù' => 'ù' | 'Í' => 'í' | 'Ó' => 'ó' | 'Ñ' => 'ñ' | 'Ä' => 'ä'
  | 'Ö' => 'ö' | c => c

/-- Python `str.lower()` on a character list. -/
def pyLower (cs : List Char) : List Char := cs.map pyLowerChar

/-- Python `str.startswith(pre)`. -/
def pyStartsWith (pre s : String) : Bool := pre.toList.isPrefixOf s.toList

/-- One pass of `re.sub(r"\s*\([^)]*\)", "", ·)` as a structural left-to-right
scan.  `inParen = false`: `pend` holds the current run of whitespace (a
potential `\s*` part of a match).  `inParen = true`: `pend` additionally holds
an opening parenthesis and the `[^)]*` body consumed so far; reaching `)`
deletes `pend` and the `)` (the regex match), reaching the end of the input
without `)` emits `pend` untouched (no match).  A non-space, non-`(` character
in the outer mode flushes `pend` and itself to the output. -/
def subParensAux (inParen : Bool) (pend : List Char) : List Char → List Char
  | [] => pend
  | c :: cs =>
    if inParen then
      if c == ')' then subParensAux false [] cs
      else subParensAux true (pend ++ [c]) cs
    else
      if c == '(' then subParensAux true (pend ++ [c]) cs
      else if isPySpace c then subParensAux false (pend ++ [c]) cs
      else pend ++ c :: subParensAux false [] cs

/-- `re.sub(r"\s*\([^)]*\)", "", cs)` (src/main.py line 53): delete every
whitespace run followed by a parenthesized group. -/
def subParens (cs : List Char) : List Char := subParensAux false [] cs

/-- `SPECIAL_SLUGS` (src/main.py lines 44-49). -/
def SPECIAL_SLUGS : List (String × String) :=
  [("curaçao", "curaao"),
   ("réunion", "runion"),
   ("u.s. virgin islands", "us_virgin_islands"),
   ("u.s. minor outlying islands", "us_minor_outlying_islands")]

/-- Python `SPECIAL_SLUGS.get(s)`: first binding of `s` in the table. -/
def lookupSlug (table : List (String × String)) (s : String) : Option String :=
  (table.find? (fun p => p.1 == s)).map Prod.snd

/-- `s = re.sub(r"\s*\([^)]*\)", "", country).strip().lower()`
(src/main.py line 53): the normalized form looked up in `SPECIAL_SLUGS`. -/
def normalizeName (country : String) : String :=
  String.mk (pyLower (pyStrip (subParens country.toList)))

/-- `re.sub(r"[&·\.,]+", "", s)` (src/main.py line 56): delete every
occurrence of the four punctuation characters. -/
def removePunct (cs : List Char) : List Char :=
  cs.filter (fun c => !(c == '&' || c == '·' || c == '.' || c == ','))

/-- `re.sub(r"[\s\-]+", "_", s)` (src/main.py line 57) as a structural scan:
`prev` records whether the previous character was in the class `[\s\-]`, so a
maximal run contributes a single underscore. -/
def collapseWsHyphenAux (prev : Bool) : List Char → List Char
  | [] => []
  | c :: cs =>
    if isPySpace c || c == '-' then
      if prev then collapseWsHyphenAux true cs
      else '_' :: collapseWsHyphenAux true cs
    else c :: collapseWsHyphenAux false cs

/-- `re.sub(r"[\s\-]+", "_", cs)`: collapse each whitespace/hyphen run to one
underscore. -/
def collapseWsHyphen (cs : List Char) : List Char := collapseWsHyphenAux false cs

/-- `slugify` (src/main.py lines 52-58), parameterized by the transliteration
function bound to the name `unidecode` (the optional third-party dependency,
when its module import succeeds). -/
def slugifyWith (uni : String → String) (country : String) : String :=
  let s := normalizeName country
  let s := (lookupSlug SPECIAL_SLUGS s).getD s
  let s := uni s
  let s := String.mk (removePunct s.toList)
  let s := String.mk (collapseWsHyphen s.toList)
  String.mk (s.toList.filter (fun c => !(c == '\'')))

/-- Modelled from the spec: the optional transliteration dependency (the
third-party `unidecode` module, not part of this repository): "Transliterate
accented/non-ASCII letters to their closest ASCII equivalents"; it is the
identity on ASCII characters. -/
def unidecodeSpec (s : String) : String :=
  String.mk (s.toList.map (fun c => match c with
    | 'é' => 'e' | 'è' => 'e' | 'ê' => 'e' | 'á' => 'a' | 'à' => 'a'
    | 'ü' => 'u' | 'ù' => 'u' | 'í' => 'i' | 'ó' => 'o' | 'ç' => 'c'
    | 'ñ' => 'n' | 'ä' => 'a' | 'ö' => 'o' | c => c))

/-- `slugify` with the transliteration dependency present. -/
def slugify (country : String) : String := slugifyWith unidecodeSpec country

/-- Python `str.maketrans(x, y)` (two-string form): fails with `ValueError`
unless the two strings have equal length; otherwise maps the i-th character of
`x` to the i-th character of `y`. -/
def pyMaketrans (x y : String) : Except String (List (Char × Char)) :=
  if x.toList.length = y.toList.length then Except.ok (x.toList.zip y.toList)
  else Except.error "ValueError: the first two maketrans arguments must have equal length"

/-- Python `str.translate(table)`: each character is replaced by its last
binding in the table (later `maketrans` pairs overwrite earlier ones). -/
def pyTranslate (table : List (Char × Char)) (s : String) : String :=
  String.mk (s.toList.map (fun c =>
    ((table.reverse.find? (fun p => p.1 == c)).map Prod.snd).getD c))

/-- The built-in fallback `unidecode` (src/main.py lines 17-22), used when the
`unidecode` module is absent: `str.maketrans("éèêáààüùíóçñäö", "eeeaauuio cn")`
followed by `translate`.  The two argument strings have lengths 14 and 12. -/
def fallbackUnidecode (txt : String) : Except String String :=
  match pyMaketrans "éèêáààüùíóçñäö" "eeeaauuio cn" with
  | Except.ok table => Except.ok (pyTranslate table txt)
  | Except.error e => Except.error e

/-- `slugify` (src/main.py lines 52-58) with the transliteration dependency
absent, so that the built-in fallback `unidecode` is used; a raised exception
is modelled as `Except.error`. -/
def slugifyFallback (country : String) : Except String String :=
  let s := normalizeName country
  let s := (lookupSlug SPECIAL_SLUGS s).getD s
  match fallbackUnidecode s with
  | Except.error e => Except.error e
  | Except.ok s =>
    let s := String.mk (removePunct s.toList)
    let s := String.mk (collapseWsHyphen s.toList)
    Except.ok (String.mk (s.toList.filter (fun c => !(c == '\''))))


/-! ## Meta extraction (`parse_country`, src/main.py lines 67-82)

BeautifulSoup parsing itself is an external collaborator; the extractor's
logic operates on the parse tree.  A `Block` is one `div[class*='py-6']`
container; its `anchors` are the `<a href=...>` descendants in document order
(an anchor without an `href` attribute behaves like one whose `href` matches
nothing); `img` is an anchor's first `<img>` descendant, if any, with its
optional `src` attribute; `text` is the anchor's `get_text(strip=True)`
before the final strip, which the embedding applies explicitly. -/

/-- `BASE_URL` (src/main.py line 38). -/
def BASE_URL : String := "https://www.geometas.com"

/-- One scraped record `{"meta": ..., "image_url": ...}` (src/main.py line 81). -/
structure Meta where
  meta : String
  image_url : String
deriving DecidableEq

/-- An `<img>` element with its optional `src` attribute. -/
structure Img where
  src : Option String
deriving DecidableEq

/-- An `<a>` element: its `href` attribute, its first `<img>` descendant (if
any), and its visible text. -/
structure Anchor where
  href : String
  img : Option Img
  text : String
deriving DecidableEq

/-- One `div[class*='py-6']` content block: its anchor descendants in
document order. -/
structure Block where
  anchors : List Anchor
deriving DecidableEq

/-- Does `pat` occur as a contiguous sublist of the text? (`re.search` with a
literal pattern). -/
def containsSub (pat : List Char) : List Char → Bool
  | [] => pat.isEmpty
  | c :: cs => pat.isPrefixOf (c :: cs) || containsSub pat cs

/-- `href=re.compile(r"/metas/detail")`: the pattern is literal, so the filter
is substring search. -/
def hasDetailHref (href : String) : Bool :=
  containsSub "/metas/detail".toList href.toList

/-- `block.find_all("a", href=re.compile(r"/metas/detail"))`
(src/main.py line 71). -/
def detailAnchors (b : Block) : List Anchor :=
  b.anchors.filter (fun a => hasDetailHref a.href)

/-- Processing of one block (src/main.py lines 71-81): first detail anchor
containing an `img`, first detail anchor containing none; skip the block
(`continue`) unless both exist; resolve the image source; strip the caption. -/
def parseBlock (b : Block) : Option Meta :=
  let anchors := detailAnchors b
  match anchors.find? (fun a => a.img.isSome), anchors.find? (fun a => a.img.isNone) with
  | some img_anchor, some text_anchor =>
    let img_url := match img_anchor.img with
      | some im => im.src.getD ""
      | none => ""
    let img_url := if pyStartsWith "/" img_url then BASE_URL ++ img_url else img_url
    some { meta := pyStripS text_anchor.text, image_url := img_url }
  | _, _ => none

/-- `parse_country` (src/main.py lines 67-82): one optional `Meta` per block,
in document order. -/
def parse_country (blocks : List Block) : List Meta :=
  blocks.filterMap parseBlock

/-- Spec-side condition (§4.3): the block has *exactly one* detail anchor with
an image and *exactly one* without. -/
def blockExactlyOneOfEach (b : Block) : Bool :=
  ((detailAnchors b).filter (fun a => a.img.isSome)).length == 1 &&
  ((detailAnchors b).filter (fun a => a.img.isNone)).length == 1

/-- Code-side condition: the block has *at least one* detail anchor with an
image and *at least one* without. -/
def blockHasBoth (b : Block) : Bool :=
  (detailAnchors b).any (fun a => a.img.isSome) &&
  (detailAnchors b).any (fun a => a.img.isNone)

/-- `if img_url.startswith("/"): img_url = BASE_URL + img_url`
(src/main.py lines 78-79). -/
def resolveImg (s : String) : String :=
  if pyStartsWith "/" s then BASE_URL ++ s else s

/-- The raw image source of a block's first image-bearing detail anchor
(`img.get("src", "")`), or `""` when there is no such anchor. -/
def blockRawSrc (b : Block) : String :=
  match (detailAnchors b).find? (fun a => a.img.isSome) with
  | some img_anchor =>
    match img_anchor.img with
    | some im => im.src.getD ""
    | none => ""
  | none => ""

/-- The `Meta` a valid block yields: resolved image source of the first
image-bearing detail anchor, stripped text of the first image-free one. -/
def blockFirstMeta (b : Block) : Meta :=
  let text_anchor := ((detailAnchors b).find? (fun a => a.img.isNone)).getD
    { href := "", img := none, text := "" }
  { meta := pyStripS text_anchor.text, image_url := resolveImg (blockRawSrc b) }

/-- Modelled from the spec: "`image_reference` is an absolute locator" — a
locator is absolute when it carries an http(s) scheme. -/
def isAbsoluteLocator (s : String) : Bool :=
  pyStartsWith "http://" s || pyStartsWith "https://" s

/-! ## Dataset building (`scrape`, src/main.py lines 85-102) and loading
(`load_data`, lines 104-114)

The network and the page parse are abstracted into a `fetch` oracle
`url ↦ Except err (List Block)`: `Except.error` is a raised exception inside
the per-country `try` (fetch failure), `Except.ok` the parse tree of the
fetched page.  A Python `dict` is an association list in insertion order with
assignment (`data[country] = v`) replacing in place. -/

/-- A `Dict[str, List[Dict]]` in insertion order. -/
abbrev Dataset := List (String × List Meta)

/-- Python `data[k] = v`: replace the binding in place if `k` is present,
otherwise append it. -/
def dictInsert (d : Dataset) (k : String) (v : List Meta) : Dataset :=
  if d.any (fun p => p.1 == k) then
    d.map (fun p => if p.1 == k then (k, v) else p)
  else d ++ [(k, v)]

/-- Python `data.get(k)` / `data[k]`. -/
def dictGet? (d : Dataset) (k : String) : Option (List Meta) :=
  (d.find? (fun p => p.1 == k)).map Prod.snd

/-- `url = f"{BASE_URL}/metas/countries/{slug}/"` (src/main.py line 91). -/
def countryUrl (country : String) : String :=
  BASE_URL ++ "/metas/countries/" ++ slugify country ++ "/"

/-- The loop body of `scrape` (src/main.py lines 89-99): fetch and extract
one country; a raised exception is caught and the entry becomes `[]`. -/
def scrapeStep (fetch : String → Except String (List Block)) (data : Dataset)
    (country : String) : Dataset :=
  match fetch (countryUrl country) with
  | Except.ok html => dictInsert data country (parse_country html)
  | Except.error _ => dictInsert data country []

/-- The value `scrape` records for one country: the extracted metas on
success, `[]` on failure. -/
def countryResult (fetch : String → Except String (List Block)) (country : String) :
    List Meta :=
  match fetch (countryUrl country) with
  | Except.ok html => parse_country html
  | Except.error _ => []

/-- `scrape` (src/main.py lines 85-102): the per-country loop over an
initially empty dict. -/
def scrape (fetch : String → Except String (List Block)) (countries : List String) :
    Dataset :=
  countries.foldl (scrapeStep fetch) []

/-- `load_data` (src/main.py lines 104-114).  The snapshot file is modelled as
`none` (no file), `some (Except.error e)` (file exists, `json.loads` raises),
or `some (Except.ok d)` (file exists and parses to `d`; JSON serialization of
a dict of lists of string records round-trips). -/
def load_data (snapshot : Option (Except String Dataset))
    (fetch : String → Except String (List Block)) (countries : List String) : Dataset :=
  match snapshot with
  | some (Except.ok d) =>
    if d.any (fun p => !p.2.isEmpty) then d else scrape fetch countries
  | some (Except.error _) => scrape fetch countries
  | none => scrape fetch countries

/-! ## Quiz session (`run_quiz`, src/main.py lines 117-172)

`st.session_state` is the explicit `QuizState`; `random.choice` on a
non-empty list is modelled by an arbitrary index taken modulo the list
length. -/

/-- `PLACEHOLDER` (src/main.py line 36). -/
def PLACEHOLDER : String := "Select a country..."

/-- The session-scoped quiz state: cumulative `score` and `attempts`, the
pending question (`current_country`, `current_meta`), and `show_meta`. -/
structure QuizState where
  score : Nat
  attempts : Nat
  current : Option (String × Meta)
  show_meta : Bool
deriving DecidableEq

/-- Session start (src/main.py lines 130-132): score and attempts zero, no
pending question. -/
def initQuizState : QuizState :=
  { score := 0, attempts := 0, current := none, show_meta := false }

/-- `valid = [m for m in data[country] if m.get("image_url")]`
(src/main.py line 137): the metas of a country eligible as questions. -/
def validMetas (metas : List Meta) : List Meta :=
  metas.filter (fun m => m.image_url != "")

/-- `available = [c for c, metas in data.items() if metas and any(m.get("image_url") for m in metas)]`
(src/main.py line 124). -/
def availableCountries (data : Dataset) : List String :=
  (data.filter (fun p => !p.2.isEmpty && p.2.any (fun m => m.image_url != ""))).map Prod.fst

/-- Outcome of question selection (src/main.py lines 119-140): one of the two
early-return error reports, or a selected question. -/
inductive QuizStart where
  | noMetas : QuizStart
  | noAvailable : QuizStart
  | question : String → Meta → QuizStart
deriving DecidableEq

/-- Question selection (src/main.py lines 119-140): the two emptiness guards,
then `random.choice(available)` and `random.choice(valid)`, the two random
draws modelled by the indices `i` and `j` modulo the respective lengths. -/
def startQuiz (data : Dataset) (i j : Nat) : QuizStart :=
  if data.all (fun p => p.2.isEmpty) then QuizStart.noMetas
  else
    let avail := availableCountries data
    if avail.isEmpty then QuizStart.noAvailable
    else
      let c := avail.getD (i % avail.length) ""
      let valid := validMetas ((dictGet? data c).getD [])
      QuizStart.question c (valid.getD (j % valid.length) { meta := "", image_url := "" })

/-- Does question selection report the empty-dataset condition? -/
def isEmptyReport : QuizStart → Bool
  | QuizStart.noMetas => true
  | QuizStart.noAvailable => true
  | QuizStart.question _ _ => false

/-- Is the Submit button enabled (src/main.py line 151)?  It exists only while
a question is pending. -/
def submitEnabled (st : QuizState) (guess : String) : Bool :=
  st.current.isSome && !st.show_meta && guess != PLACEHOLDER

/-- Submit-guess transition (src/main.py lines 154-163): increment `attempts`;
increment `score` iff the guess equals the question's country; reveal.  While
the button is disabled (no pending question, already revealed, or placeholder
guess) the transition is a no-op. -/
def submitGuess (st : QuizState) (guess : String) : QuizState :=
  match st.current with
  | some (country, _) =>
    if !st.show_meta && guess != PLACEHOLDER then
      { st with attempts := st.attempts + 1,
                score := st.score + (if guess == country then 1 else 0),
                show_meta := true }
    else st
  | none => st

/-- Need-question transition (src/main.py lines 135-140): set a question when
none is pending, otherwise a no-op. -/
def pickQuestion (st : QuizState) (c : String) (m : Meta) : QuizState :=
  match st.current with
  | none => { st with current := some (c, m), show_meta := false }
  | some _ => st

/-- Next-question transition (src/main.py lines 166-172): after a reveal,
discard the pending question and keep score and attempts; otherwise the
button does not exist and the transition is a no-op. -/
def nextQuestion (st : QuizState) : QuizState :=
  if st.show_meta then { st with current := none, show_meta := false } else st

/-- The session's events. -/
inductive QuizEvent where
  | pick : String → Meta → QuizEvent
  | submit : String → QuizEvent
  | next : QuizEvent

/-- One step of the quiz state machine. -/
def stepQuiz (st : QuizState) : QuizEvent → QuizState
  | QuizEvent.pick c m => pickQuestion st c m
  | QuizEvent.submit g => submitGuess st g
  | QuizEvent.next => nextQuestion st

/-- A whole session: fold the events over the state. -/
def runQuiz (st : QuizState) (es : List QuizEvent) : QuizState :=
  es.foldl stepQuiz st

/-- Number of submit-guess events in a trace. -/
def submitCount : List QuizEvent → Nat
  | [] => 0
  | QuizEvent.submit _ :: es => submitCount es + 1
  | _ :: es => submitCount es

/-- A trace is admissible from `st` when every submit-guess event fires while
the Submit button is enabled (the only way the UI lets it fire). -/
def admissible (st : QuizState) : List QuizEvent → Bool
  | [] => true
  | e :: es =>
    (match e with
     | QuizEvent.submit g => submitEnabled st g
     | _ => true) && admissible (stepQuiz st e) es

/-! ## Helper lemmas -/

/-- A list has a witness of `p` exactly when `find?` succeeds. -/
theorem any_eq_isSome_find? {α : Type} (l : List α) (p : α → Bool) :
    l.any p = (l.find? p).isSome := by
  induction l with
  | nil => rfl
  | cons a t ih => by_cases h : p a <;> simp [List.find?_cons, h, ih]

/-- A block passing the code-side guard is parsed to its first-anchors record. -/
theorem parseBlock_eq_some (b : Block) (h : blockHasBoth b = true) :
    parseBlock b = some (blockFirstMeta b) := by
  unfold blockHasBoth at h
  rw [any_eq_isSome_find?, any_eq_isSome_find?, Bool.and_eq_true] at h
  obtain ⟨h1, h2⟩ := h
  obtain ⟨ia, hia⟩ := Option.isSome_iff_exists.mp h1
  obtain ⟨ta, hta⟩ := Option.isSome_iff_exists.mp h2
  simp only [parseBlock, blockFirstMeta, blockRawSrc, resolveImg, hia, hta, Option.getD_some]

/-- A block failing the code-side guard is skipped. -/
theorem parseBlock_eq_none (b : Block) (h : blockHasBoth b = false) :
    parseBlock b = none := by
  unfold blockHasBoth at h
  simp only [parseBlock]
  cases hi : (detailAnchors b).find? (fun a => a.img.isSome) with
  | none => rfl
  | some ia =>
    cases ht : (detailAnchors b).find? (fun a => a.img.isNone) with
    | none => rfl
    | some ta =>
      rw [any_eq_isSome_find?, any_eq_isSome_find?, hi, ht] at h
      simp at h

/-- A parsed block is parsed to its first-anchors record. -/
theorem parseBlock_some_eq (b : Block) (m : Meta) (h : parseBlock b = some m) :
    m = blockFirstMeta b := by
  by_cases hb : blockHasBoth b = true
  · rw [parseBlock_eq_some b hb] at h
    exact (Option.some_inj.mp h).symm
  · rw [parseBlock_eq_none b (Bool.not_eq_true _ ▸ Bool.eq_false_iff.mpr hb)] at h
    cases h

/-- Rebinding key `k` changes no lookup for another key `c`. -/
theorem find?_map_assign_ne (t : Dataset) (k : String) (v : List Meta) (c : String)
    (hc : c ≠ k) :
    List.find? (fun p => p.1 == c) (t.map (fun p => if p.1 == k then (k, v) else p)) =
      List.find? (fun p => p.1 == c) t := by
  induction t with
  | nil => rfl
  | cons p t ih =>
    by_cases hpk : (p.1 == k) = true
    · have hp1 : p.1 = k := eq_of_beq hpk
      rw [List.map_cons, if_pos hpk]
      rw [List.find?_cons, List.find?_cons]
      have h1 : ((k, v).1 == c) = false := beq_eq_false_iff_ne.mpr (fun h => hc h.symm)
      have h2 : (p.1 == c) = false := beq_eq_false_iff_ne.mpr (by rw [hp1]; exact fun h => hc h.symm)
      rw [h1, h2, ih]
    · rw [List.map_cons, if_neg hpk, List.find?_cons, List.find?_cons]
      cases hpc : (p.1 == c) with
      | true => rfl
      | false => exact ih

/-- Rebinding a present key `k` makes its lookup read back the new value. -/
theorem find?_map_assign_self (t : Dataset) (k : String) (v : List Meta)
    (hmem : t.any (fun p => p.1 == k) = true) :
    List.find? (fun p => p.1 == k) (t.map (fun p => if p.1 == k then (k, v) else p)) =
      some (k, v) := by
  induction t with
  | nil => simp at hmem
  | cons p t ih =>
    rw [List.any_cons, Bool.or_eq_true] at hmem
    by_cases hpk : (p.1 == k) = true
    · rw [List.map_cons, if_pos hpk, List.find?_cons]
      have : ((k, v).1 == k) = true := beq_self_eq_true k
      rw [this]
    · have hpk' : (p.1 == k) = false := by
        cases hx : (p.1 == k) with
        | true => exact absurd hx hpk
        | false => rfl
      rw [List.map_cons, if_neg hpk, List.find?_cons, hpk']
      rcases hmem with h | h
      · rw [hpk'] at h; cases h
      · exact ih h

/-- `dict` assignment then lookup: the assigned key reads back the assigned
value, every other key is untouched. -/
theorem dictGet?_dictInsert (d : Dataset) (k : String) (v : List Meta) (c : String) :
    dictGet? (dictInsert d k v) c = if c = k then some v else dictGet? d c := by
  unfold dictInsert dictGet?
  by_cases hmem : d.any (fun p => p.1 == k) = true
  · rw [if_pos hmem]
    by_cases hc : c = k
    · subst hc
      rw [if_pos rfl, find?_map_assign_self d c v hmem]
      rfl
    · rw [if_neg hc, find?_map_assign_ne d k v c hc]
  · rw [if_neg hmem, List.find?_append]
    have hdnone : ∀ hck : c = k, d.find? (fun p => p.1 == c) = none := by
      intro hck
      apply List.find?_eq_none.mpr
      intro p hp hpc
      rw [hck] at hpc
      exact hmem (List.any_eq_true.mpr ⟨p, hp, hpc⟩)
    by_cases hc : c = k
    · rw [if_pos hc, hdnone hc]
      have : ((k, v).1 == c) = true := beq_iff_eq.mpr hc.symm
      simp [List.find?_cons, this]
    · rw [if_neg hc]
      have hlast : List.find? (fun p => p.1 == c) [(k, v)] = none := by
        have : ((k, v).1 == c) = false := beq_eq_false_iff_ne.mpr (fun h => hc h.symm)
        simp [List.find?_cons, this]
      rw [hlast]
      cases d.find? (fun p => p.1 == c) <;> rfl

/-- One scrape step is a dict assignment of that country's result. -/
theorem scrapeStep_eq (fetch : String → Except String (List Block)) (d : Dataset)
    (c : String) : scrapeStep fetch d c = dictInsert d c (countryResult fetch c) := by
  unfold scrapeStep countryResult
  cases fetch (countryUrl c) <;> rfl

/-- After the scrape loop, every country of the list reads back its own
result, whatever the starting dict held for it. -/
theorem foldl_scrapeStep_get (fetch : String → Except String (List Block))
    (t : List String) (c : String) :
    ∀ d : Dataset, (c ∈ t ∨ dictGet? d c = some (countryResult fetch c)) →
      dictGet? (t.foldl (scrapeStep fetch) d) c = some (countryResult fetch c) := by
  induction t with
  | nil =>
    intro d h
    rcases h with h | h
    · cases h
    · exact h
  | cons x t ih =>
    intro d h
    rw [List.foldl_cons]
    apply ih
    by_cases hcx : c = x
    · right
      rw [scrapeStep_eq, dictGet?_dictInsert, if_pos hcx, hcx]
    · rcases h with h | h
      · rcases List.mem_cons.mp h with h' | h'
        · exact absurd h' hcx
        · exact Or.inl h'
      · right
        rw [scrapeStep_eq, dictGet?_dictInsert, if_neg hcx]
        exact h

/-- Every country of the list reads back its own result from the scrape. -/
theorem scrape_get (fetch : String → Except String (List Block))
    (countries : List String) (c : String) (h : c ∈ countries) :
    dictGet? (scrape fetch countries) c = some (countryResult fetch c) :=
  foldl_scrapeStep_get fetch countries c [] (Or.inl h)

/-- A dict assignment of `[]` preserves "every value is empty". -/
theorem dictInsert_empty_preserves (d : Dataset) (k : String)
    (hall : ∀ p ∈ d, p.2 = ([] : List Meta)) :
    ∀ p ∈ dictInsert d k [], p.2 = ([] : List Meta) := by
  unfold dictInsert
  by_cases hmem : d.any (fun p => p.1 == k) = true
  · rw [if_pos hmem]
    intro p hp
    obtain ⟨q, hq, hfq⟩ := List.mem_map.mp hp
    by_cases hqk : (q.1 == k) = true
    · rw [if_pos hqk] at hfq
      rw [← hfq]
    · rw [if_neg hqk] at hfq
      rw [← hfq]
      exact hall q hq
  · rw [if_neg hmem]
    intro p hp
    rcases List.mem_append.mp hp with h | h
    · exact hall p h
    · rcases List.mem_singleton.mp h with rfl
      rfl

/-- A dict assignment to a present key leaves the key list unchanged. -/
theorem keys_map_assign (d : Dataset) (k : String) (v : List Meta) :
    (d.map (fun p => if p.1 == k then (k, v) else p)).map Prod.fst = d.map Prod.fst := by
  rw [List.map_map]
  apply List.map_congr_left
  intro p _
  by_cases hpk : (p.1 == k) = true
  · simp only [Function.comp_apply, if_pos hpk]
    exact (eq_of_beq hpk).symm
  · simp only [Function.comp_apply, if_neg hpk]

/-- Membership in the key list, through one dict assignment. -/
theorem mem_keys_dictInsert (d : Dataset) (k : String) (v : List Meta) (c : String) :
    c ∈ (dictInsert d k v).map Prod.fst ↔ c ∈ d.map Prod.fst ∨ c = k := by
  unfold dictInsert
  by_cases hmem : d.any (fun p => p.1 == k) = true
  · rw [if_pos hmem, keys_map_assign]
    constructor
    · exact Or.inl
    · rintro (h | rfl)
      · exact h
      · obtain ⟨p, hp, hpk⟩ := List.any_eq_true.mp hmem
        exact List.mem_map.mpr ⟨p, hp, eq_of_beq hpk⟩
  · rw [if_neg hmem, List.map_append]
    rw [List.mem_append]
    simp

/-- Membership in the key list, through the whole scrape loop. -/
theorem mem_keys_foldl_scrapeStep (fetch : String → Except String (List Block))
    (t : List String) (c : String) :
    ∀ d : Dataset, c ∈ (t.foldl (scrapeStep fetch) d).map Prod.fst ↔
      c ∈ d.map Prod.fst ∨ c ∈ t := by
  induction t with
  | nil =>
    intro d
    simp
  | cons x t ih =>
    intro d
    rw [List.foldl_cons, ih, scrapeStep_eq, mem_keys_dictInsert, List.mem_cons]
    tauto

/-- With duplicate-free keys, each entry reads back its own value. -/
theorem dictGet?_of_mem (d : Dataset) (hnd : (d.map Prod.fst).Nodup)
    (p : String × List Meta) (hp : p ∈ d) : dictGet? d p.1 = some p.2 := by
  induction d with
  | nil => cases hp
  | cons q t ih =>
    rw [List.map_cons, List.nodup_cons] at hnd
    rcases List.mem_cons.mp hp with rfl | hpt
    · unfold dictGet?
      rw [List.find?_cons]
      have : (p.1 == p.1) = true := beq_self_eq_true p.1
      rw [this]
      rfl
    · have hne : (q.1 == p.1) = false := by
        apply beq_eq_false_iff_ne.mpr
        intro hq
        exact hnd.1 (hq ▸ List.mem_map.mpr ⟨p, hpt, rfl⟩)
      unfold dictGet?
      rw [List.find?_cons, hne]
      exact ih hnd.2 hpt

/-- With duplicate-free keys, two entries with the same key are the same
entry. -/
theorem entries_eq_of_nodup (d : Dataset) (hnd : (d.map Prod.fst).Nodup)
    (p q : String × List Meta) (hp : p ∈ d) (hq : q ∈ d) (hk : p.1 = q.1) : p = q := by
  have h1 := dictGet?_of_mem d hnd p hp
  have h2 := dictGet?_of_mem d hnd q hq
  rw [hk, h2] at h1
  exact Prod.ext hk (Option.some_inj.mp h1).symm

/-- An available country's entry exists and has an eligible meta. -/
theorem available_sound (data : Dataset) (hnd : (data.map Prod.fst).Nodup)
    (c : String) (hc : c ∈ availableCountries data) :
    ∃ metas, dictGet? data c = some metas ∧ validMetas metas ≠ [] := by
  unfold availableCountries at hc
  obtain ⟨p, hpf, hp1⟩ := List.mem_map.mp hc
  rw [List.mem_filter] at hpf
  obtain ⟨hpd, hpred⟩ := hpf
  refine ⟨p.2, ?_, ?_⟩
  · rw [← hp1]
    exact dictGet?_of_mem data hnd p hpd
  · rw [Bool.and_eq_true] at hpred
    obtain ⟨m, hm, hmi⟩ := List.any_eq_true.mp hpred.2
    exact List.ne_nil_of_mem (List.mem_filter.mpr ⟨hm, hmi⟩)

/-- When every entry is empty no country is available. -/
theorem allEmpty_available (data : Dataset)
    (h : data.all (fun p => p.2.isEmpty) = true) : availableCountries data = [] := by
  unfold availableCountries
  have hfil : data.filter (fun p => !p.2.isEmpty && p.2.any (fun m => m.image_url != "")) = [] := by
    rw [List.filter_eq_nil_iff]
    intro p hp
    have := List.all_eq_true.mp h p hp
    simp [this]
  rw [hfil]
  rfl

/-- An in-bounds `getD` is a member. -/
theorem getD_mem_of_lt {α : Type} (l : List α) (i : Nat) (dflt : α)
    (h : i < l.length) : l.getD i dflt ∈ l := by
  rw [List.getD_eq_getElem l dflt h]
  exact List.getElem_mem h

/-- Eligible-metas membership unfolds to membership plus a non-empty image. -/
theorem mem_validMetas (metas : List Meta) (m : Meta) :
    m ∈ validMetas metas ↔ m ∈ metas ∧ m.image_url ≠ "" := by
  unfold validMetas
  rw [List.mem_filter]
  constructor
  · rintro ⟨h1, h2⟩
    exact ⟨h1, by simpa using h2⟩
  · rintro ⟨h1, h2⟩
    exact ⟨h1, by simpa using h2⟩

/-- Picking a question never changes score or attempts. -/
theorem pickQuestion_counters (st : QuizState) (c : String) (m : Meta) :
    (pickQuestion st c m).attempts = st.attempts ∧ (pickQuestion st c m).score = st.score := by
  unfold pickQuestion
  cases st.current <;> exact ⟨rfl, rfl⟩

/-- Advancing to the next question never changes score or attempts. -/
theorem nextQuestion_counters (st : QuizState) :
    (nextQuestion st).attempts = st.attempts ∧ (nextQuestion st).score = st.score := by
  unfold nextQuestion
  by_cases h : st.show_meta = true
  · rw [if_pos h]
    exact ⟨rfl, rfl⟩
  · rw [if_neg h]
    exact ⟨rfl, rfl⟩

/-- An enabled submit performs the increments of src/main.py lines 155-157. -/
theorem submitGuess_of_enabled (st : QuizState) (g : String)
    (h : submitEnabled st g = true) :
    ∃ c m, st.current = some (c, m) ∧
      submitGuess st g = { st with attempts := st.attempts + 1,
                                   score := st.score + (if g == c then 1 else 0),
                                   show_meta := true } := by
  unfold submitEnabled at h
  rw [Bool.and_eq_true, Bool.and_eq_true] at h
  obtain ⟨⟨hsome, hshow⟩, hph⟩ := h
  obtain ⟨q, hq⟩ := Option.isSome_iff_exists.mp hsome
  obtain ⟨c, m⟩ := q
  refine ⟨c, m, hq, ?_⟩
  have hcond : (!st.show_meta && g != PLACEHOLDER) = true := by rw [hshow, hph]; rfl
  unfold submitGuess
  rw [hq]
  simp only [hcond, if_true]

/-- A disabled submit is a no-op. -/
theorem submitGuess_of_disabled (st : QuizState) (g : String)
    (h : submitEnabled st g = false) : submitGuess st g = st := by
  unfold submitEnabled at h
  unfold submitGuess
  cases hq : st.current with
  | none => rfl
  | some q =>
    obtain ⟨c, m⟩ := q
    rw [hq] at h
    simp only [Option.isSome_some, Bool.true_and] at h
    simp only [h]
    rfl

/-- Every step of the machine keeps `score ≤ attempts`. -/
theorem stepQuiz_le (st : QuizState) (e : QuizEvent) (h : st.score ≤ st.attempts) :
    (stepQuiz st e).score ≤ (stepQuiz st e).attempts := by
  cases e with
  | pick c m =>
    have hc := pickQuestion_counters st c m
    rw [stepQuiz, hc.1, hc.2]
    exact h
  | next =>
    have hc := nextQuestion_counters st
    rw [stepQuiz, hc.1, hc.2]
    exact h
  | submit g =>
    rw [stepQuiz]
    by_cases he : submitEnabled st g = true
    · obtain ⟨c, m, _, heq⟩ := submitGuess_of_enabled st g he
      rw [heq]
      by_cases hg : (g == c) = true
      · rw [if_pos hg]
        show st.score + 1 ≤ st.attempts + 1
        omega
      · rw [if_neg hg]
        show st.score + 0 ≤ st.attempts + 1
        omega
    · rw [submitGuess_of_disabled st g (Bool.eq_false_iff.mpr he)]
      exact h

/-- The invariant `score ≤ attempts` propagates along any trace. -/
theorem runQuiz_le (es : List QuizEvent) :
    ∀ st : QuizState, st.score ≤ st.attempts →
      (runQuiz st es).score ≤ (runQuiz st es).attempts := by
  induction es with
  | nil =>
    intro st h
    exact h
  | cons e es ih =>
    intro st h
    rw [runQuiz, List.foldl_cons]
    exact ih (stepQuiz st e) (stepQuiz_le st e h)

/-- Along an admissible trace, `attempts` counts exactly the submit events. -/
theorem runQuiz_attempts (es : List QuizEvent) :
    ∀ st : QuizState, admissible st es = true →
      (runQuiz st es).attempts = st.attempts + submitCount es := by
  induction es with
  | nil =>
    intro st _
    rfl
  | cons e es ih =>
    intro st h
    rw [runQuiz, List.foldl_cons]
    cases e with
    | pick c m =>
      have h' : admissible (stepQuiz st (QuizEvent.pick c m)) es = true := by
        have heq : admissible st (QuizEvent.pick c m :: es) =
            (true && admissible (stepQuiz st (QuizEvent.pick c m)) es) := rfl
        rw [heq, Bool.true_and] at h
        exact h
      rw [show List.foldl stepQuiz (stepQuiz st (QuizEvent.pick c m)) es =
            runQuiz (stepQuiz st (QuizEvent.pick c m)) es from rfl, ih _ h']
      rw [show stepQuiz st (QuizEvent.pick c m) = pickQuestion st c m from rfl,
        (pickQuestion_counters st c m).1]
      rfl
    | next =>
      have h' : admissible (stepQuiz st QuizEvent.next) es = true := by
        have heq : admissible st (QuizEvent.next :: es) =
            (true && admissible (stepQuiz st QuizEvent.next) es) := rfl
        rw [heq, Bool.true_and] at h
        exact h
      rw [show List.foldl stepQuiz (stepQuiz st QuizEvent.next) es =
            runQuiz (stepQuiz st QuizEvent.next) es from rfl, ih _ h']
      rw [show stepQuiz st QuizEvent.next = nextQuestion st from rfl,
        (nextQuestion_counters st).1]
      rfl
    | submit g =>
      have heq : admissible st (QuizEvent.submit g :: es) =
          (submitEnabled st g && admissible (stepQuiz st (QuizEvent.submit g)) es) := rfl
      rw [heq, Bool.and_eq_true] at h
      obtain ⟨hg, hrest⟩ := h
      rw [show List.foldl stepQuiz (stepQuiz st (QuizEvent.submit g)) es =
            runQuiz (stepQuiz st (QuizEvent.submit g)) es from rfl, ih _ hrest]
      obtain ⟨c, m, _, hsub⟩ := submitGuess_of_enabled st g hg
      rw [show stepQuiz st (QuizEvent.submit g) = submitGuess st g from rfl, hsub]
      show st.attempts + 1 + submitCount es = st.attempts + submitCount (QuizEvent.submit g :: es)
      rw [show submitCount (QuizEvent.submit g :: es) = submitCount es + 1 from rfl]
      omega

/-! ## The claims -/

/-- C1: For every country name whose parenthetical-stripped, lowercased form
is a key of the override table, `slug` returns the override table's value
verbatim (the generic transliteration, punctuation-removal and
whitespace-collapse steps leave it unchanged, the transliteration dependency
being the identity on the table's ASCII values); in particular
`slug("Curaçao") = "curaao"`. -/
theorem C1_override_verbatim :
    (∀ uni : String → String, (∀ kv ∈ SPECIAL_SLUGS, uni kv.2 = kv.2) →
      ∀ country k v : String, (k, v) ∈ SPECIAL_SLUGS →
        normalizeName country = k → slugifyWith uni country = v) ∧
    slugify "Curaçao" = "curaao" := by
  constructor
  · intro uni huni country k v hmem hnorm
    have hval : uni v = v := huni (k, v) hmem
    simp only [SPECIAL_SLUGS, List.mem_cons, List.not_mem_nil, or_false,
      Prod.mk.injEq] at hmem
    simp only [slugifyWith]
    rw [hnorm]
    rcases hmem with ⟨rfl, rfl⟩ | ⟨rfl, rfl⟩ | ⟨rfl, rfl⟩ | ⟨rfl, rfl⟩
    · rw [show (lookupSlug SPECIAL_SLUGS "curaçao").getD "curaçao" = "curaao" from rfl, hval]
      decide
    · rw [show (lookupSlug SPECIAL_SLUGS "réunion").getD "réunion" = "runion" from rfl, hval]
      decide
    · rw [show (lookupSlug SPECIAL_SLUGS "u.s. virgin islands").getD "u.s. virgin islands"
          = "us_virgin_islands" from rfl, hval]
      decide
    · rw [show (lookupSlug SPECIAL_SLUGS "u.s. minor outlying islands").getD
          "u.s. minor outlying islands" = "us_minor_outlying_islands" from rfl, hval]
      decide
  · decide

/-- C1 witness: the override path evaluated at "Curaçao". -/
theorem C1_override_verbatim_witness :
    ((∀ kv ∈ SPECIAL_SLUGS, unidecodeSpec kv.2 = kv.2) ∧
     ("curaçao", "curaao") ∈ SPECIAL_SLUGS ∧
     normalizeName "Curaçao" = "curaçao") ∧
    slugifyWith unidecodeSpec "Curaçao" = "curaao" :=
  ⟨⟨by decide, by decide, by decide⟩,
   C1_override_verbatim.1 unidecodeSpec (by decide) "Curaçao" "curaçao" "curaao"
     (by decide) (by decide)⟩

/-- C2 (code bug): with the transliteration dependency absent, every call of
`slugify` raises: the built-in fallback `unidecode` calls
`str.maketrans("éèêáààüùíóçñäö", "eeeaauuio cn")` whose arguments have lengths
14 and 12, which raises `ValueError` before any translation happens —
evaluated here at the input "France". -/
theorem C2_fallback_raises :
    slugifyFallback "France" =
      Except.error "ValueError: the first two maketrans arguments must have equal length" ∧
    ("éèêáààüùíóçñäö".toList.length = 14 ∧ "eeeaauuio cn".toList.length = 12) :=
  ⟨rfl, by decide, by decide⟩

/-- C3 counterexample: a block with two image-bearing detail anchors and one
image-free one does not satisfy the spec's exactly-one-of-each condition, yet
`parse_country` does not discard it — it emits a `Meta` built from the first
anchor of each kind. -/
theorem C3_exactly_one_counterexample :
    blockExactlyOneOfEach
      { anchors := [{ href := "/metas/detail/1", img := some { src := some "/a.png" }, text := "x" },
                    { href := "/metas/detail/2", img := some { src := some "/b.png" }, text := "y" },
                    { href := "/metas/detail/3", img := none, text := "France" }] } = false ∧
    parse_country
      [{ anchors := [{ href := "/metas/detail/1", img := some { src := some "/a.png" }, text := "x" },
                     { href := "/metas/detail/2", img := some { src := some "/b.png" }, text := "y" },
                     { href := "/metas/detail/3", img := none, text := "France" }] }] =
      [{ meta := "France", image_url := "https://www.geometas.com/a.png" }] :=
  ⟨by decide, by decide⟩

/-- C3 (amended): `extract` emits exactly one `Meta` per block containing at
least one detail-path hyperlink with an image element and at least one
without (built from the first of each, in document order); a block lacking
either kind is discarded; the embedding is total, so no input raises. -/
theorem C3_extract_blocks (blocks : List Block) :
    parse_country blocks = (blocks.filter blockHasBoth).map blockFirstMeta := by
  induction blocks with
  | nil => rfl
  | cons b t ih =>
    by_cases h : blockHasBoth b = true
    · rw [parse_country, List.filterMap_cons, parseBlock_eq_some b h,
        List.filter_cons_of_pos h, List.map_cons]
      rw [parse_country] at ih
      rw [ih]
    · have h' : blockHasBoth b = false := Bool.eq_false_iff.mpr h
      rw [parse_country, List.filterMap_cons, parseBlock_eq_none b h',
        List.filter_cons_of_neg (by rw [h']; exact Bool.false_ne_true)]
      rw [parse_country] at ih
      rw [ih]

/-- C4 counterexample: a valid block whose image element has no `src`
attribute yields a stored `image_reference` of `""`, which is not an absolute
locator — so not every emitted `Meta` has an absolute `image_reference`. -/
theorem C4_absolute_counterexample :
    parse_country
      [{ anchors := [{ href := "/metas/detail/a", img := some { src := none }, text := "i" },
                     { href := "/metas/detail/b", img := none, text := "Chad" }] }] =
      [{ meta := "Chad", image_url := "" }] ∧
    isAbsoluteLocator "" = false :=
  ⟨by decide, by decide⟩

/-- C4 (amended): every emitted `Meta` stores the resolution of the block's
raw image source: a root-relative source (leading "/") gets the fixed origin
prepended — and is then an absolute locator — while any other source
(including the empty string recorded for a missing `src` attribute) is stored
verbatim. -/
theorem C4_image_resolution (b : Block) (m : Meta) (h : parseBlock b = some m) :
    m.image_url = resolveImg (blockRawSrc b) ∧
    (pyStartsWith "/" (blockRawSrc b) = true →
      m.image_url = BASE_URL ++ blockRawSrc b ∧ isAbsoluteLocator m.image_url = true) := by
  have hm : m = blockFirstMeta b := parseBlock_some_eq b m h
  subst hm
  refine ⟨rfl, fun hsl => ?_⟩
  have hres : resolveImg (blockRawSrc b) = BASE_URL ++ blockRawSrc b := by
    unfold resolveImg
    rw [if_pos hsl]
  constructor
  · show resolveImg (blockRawSrc b) = BASE_URL ++ blockRawSrc b
    exact hres
  · show isAbsoluteLocator (resolveImg (blockRawSrc b)) = true
    rw [hres]
    exact rfl

/-- C4 witness: the amended resolution rule evaluated on a block with the
root-relative source "/pic.png". -/
theorem C4_image_resolution_witness :
    parseBlock { anchors := [{ href := "/metas/detail/a", img := some { src := some "/pic.png" }, text := "i" },
                             { href := "/metas/detail/b", img := none, text := "Peru" }] } =
      some { meta := "Peru", image_url := "https://www.geometas.com/pic.png" } ∧
    ({ meta := "Peru", image_url := "https://www.geometas.com/pic.png" } : Meta).image_url =
      resolveImg (blockRawSrc { anchors := [{ href := "/metas/detail/a", img := some { src := some "/pic.png" }, text := "i" },
                                            { href := "/metas/detail/b", img := none, text := "Peru" }] }) :=
  ⟨by decide,
   (C4_image_resolution
     { anchors := [{ href := "/metas/detail/a", img := some { src := some "/pic.png" }, text := "i" },
                   { href := "/metas/detail/b", img := none, text := "Peru" }] }
     { meta := "Peru", image_url := "https://www.geometas.com/pic.png" }
     (by decide)).1⟩

/-- C5: a fetch failure for one country is caught and that country's entry
becomes the empty sequence while the loop continues; in particular when every
fetch fails, every value of the returned dataset is the empty sequence (the
embedding is total, so `scrape` never raises). -/
theorem C5_failure_tolerance :
    (∀ (fetch : String → Except String (List Block)) (countries : List String)
       (c e : String), fetch (countryUrl c) = Except.error e → c ∈ countries →
         dictGet? (scrape fetch countries) c = some []) ∧
    (∀ (fetch : String → Except String (List Block)) (countries : List String),
       (∀ u, ∃ e, fetch u = Except.error e) →
       ∀ p ∈ scrape fetch countries, p.2 = ([] : List Meta)) := by
  constructor
  · intro fetch countries c e hf hc
    have hres : countryResult fetch c = [] := by
      unfold countryResult
      rw [hf]
    rw [scrape_get fetch countries c hc, hres]
  · intro fetch countries hall
    have hstep : ∀ (d : Dataset) (x : String), (∀ p ∈ d, p.2 = ([] : List Meta)) →
        ∀ p ∈ scrapeStep fetch d x, p.2 = ([] : List Meta) := by
      intro d x hd
      obtain ⟨e, he⟩ := hall (countryUrl x)
      rw [scrapeStep_eq]
      have hres : countryResult fetch x = [] := by
        unfold countryResult
        rw [he]
      rw [hres]
      exact dictInsert_empty_preserves d x hd
    have haux : ∀ (t : List String) (d : Dataset), (∀ p ∈ d, p.2 = ([] : List Meta)) →
        ∀ p ∈ t.foldl (scrapeStep fetch) d, p.2 = ([] : List Meta) := by
      intro t
      induction t with
      | nil => intro d hd; exact hd
      | cons x t ih =>
        intro d hd
        rw [List.foldl_cons]
        exact ih (scrapeStep fetch d x) (hstep d x hd)
    intro p hp
    exact haux countries [] (by intro q hq; cases hq) p hp

/-- C5 witness: a fetch oracle that always fails, on a two-country list. -/
theorem C5_failure_tolerance_witness :
    ((fun _ : String => (Except.error "boom" : Except String (List Block)))
        (countryUrl "France") = Except.error "boom" ∧
      "France" ∈ ["France", "Chad"]) ∧
    dictGet? (scrape (fun _ => Except.error "boom") ["France", "Chad"]) "France" = some [] ∧
    (∀ p ∈ scrape (fun _ => Except.error "boom") ["France", "Chad"], p.2 = ([] : List Meta)) :=
  ⟨⟨rfl, by decide⟩,
   C5_failure_tolerance.1 (fun _ => Except.error "boom") ["France", "Chad"] "France" "boom"
     rfl (by decide),
   C5_failure_tolerance.2 (fun _ => Except.error "boom") ["France", "Chad"]
     (fun _ => ⟨"boom", rfl⟩)⟩

/-- C6: for every fetch behaviour, the key set of the dataset returned by the
scrape equals the supplied country list: a string is a key exactly when it is
a supplied country. -/
theorem C6_keys_invariant (fetch : String → Except String (List Block))
    (countries : List String) (c : String) :
    c ∈ (scrape fetch countries).map Prod.fst ↔ c ∈ countries := by
  unfold scrape
  rw [mem_keys_foldl_scrapeStep fetch countries c []]
  simp

/-- C7: loading immediately after a successful build, with the snapshot
parsing back to exactly the dataset just written, returns a dataset equal to
the built one (either directly, or — when every entry is empty — by re-running
the same deterministic scrape). -/
theorem C7_roundtrip (fetch : String → Except String (List Block))
    (countries : List String) :
    load_data (some (Except.ok (scrape fetch countries))) fetch countries =
      scrape fetch countries := by
  show (if (scrape fetch countries).any (fun p => !p.2.isEmpty) = true
    then scrape fetch countries else scrape fetch countries) = scrape fetch countries
  exact ite_self _

/-- C8: along any admissible trace, `attempts` counts exactly the submit-guess
events; an enabled submit increments `attempts` by one and increments `score`
by one exactly when the guess equals the current question's country; and
`score ≤ attempts` holds after any trace from the initial state. -/
theorem C8_score_attempts :
    (∀ (st : QuizState) (es : List QuizEvent), admissible st es = true →
       (runQuiz st es).attempts = st.attempts + submitCount es) ∧
    (∀ (st : QuizState) (g c : String) (m : Meta),
       st.current = some (c, m) → submitEnabled st g = true →
       (submitGuess st g).attempts = st.attempts + 1 ∧
       ((submitGuess st g).score = st.score + 1 ↔ g = c) ∧
       (g ≠ c → (submitGuess st g).score = st.score)) ∧
    (∀ es : List QuizEvent,
       (runQuiz initQuizState es).score ≤ (runQuiz initQuizState es).attempts) := by
  refine ⟨fun st es h => runQuiz_attempts es st h, ?_,
    fun es => runQuiz_le es initQuizState (Nat.le_refl 0)⟩
  intro st g c m hcur hen
  obtain ⟨c', m', hcur', hsub⟩ := submitGuess_of_enabled st g hen
  rw [hcur] at hcur'
  obtain ⟨rfl, rfl⟩ : c = c' ∧ m = m' := by
    have hp := Option.some_inj.mp hcur'
    exact ⟨congrArg Prod.fst hp, congrArg Prod.snd hp⟩
  rw [hsub]
  refine ⟨rfl, ?_, ?_⟩
  · by_cases hg : g = c
    · rw [if_pos (beq_iff_eq.mpr hg)]
      exact ⟨fun _ => hg, fun _ => rfl⟩
    · rw [if_neg (fun hb => hg (eq_of_beq hb))]
      constructor
      · intro hsc
        exfalso
        have hcontra : st.score + 0 = st.score + 1 := hsc
        omega
      · intro hgc
        exact absurd hgc hg
  · intro hg
    rw [if_neg (fun hb => hg (eq_of_beq hb))]
    rfl

/-- C8 witness: a five-event session — question, correct guess, advance,
question, wrong guess — applied to the counting part, and one enabled submit
applied to the single-step part. -/
theorem C8_score_attempts_witness :
    (admissible initQuizState
        [QuizEvent.pick "France" ⟨"cap", "https://x/i.png"⟩,
         QuizEvent.submit "France", QuizEvent.next,
         QuizEvent.pick "Chad" ⟨"c2", "/i2.png"⟩,
         QuizEvent.submit "Peru"] = true ∧
      (runQuiz initQuizState
        [QuizEvent.pick "France" ⟨"cap", "https://x/i.png"⟩,
         QuizEvent.submit "France", QuizEvent.next,
         QuizEvent.pick "Chad" ⟨"c2", "/i2.png"⟩,
         QuizEvent.submit "Peru"]).attempts =
        initQuizState.attempts + submitCount
          [QuizEvent.pick "France" ⟨"cap", "https://x/i.png"⟩,
           QuizEvent.submit "France", QuizEvent.next,
           QuizEvent.pick "Chad" ⟨"c2", "/i2.png"⟩,
           QuizEvent.submit "Peru"]) ∧
    ((⟨0, 0, some ("France", ⟨"cap", "https://x/i.png"⟩), false⟩ : QuizState).current =
        some ("France", ⟨"cap", "https://x/i.png"⟩) ∧
      submitEnabled ⟨0, 0, some ("France", ⟨"cap", "https://x/i.png"⟩), false⟩ "France" = true ∧
      (submitGuess ⟨0, 0, some ("France", ⟨"cap", "https://x/i.png"⟩), false⟩ "France").attempts
        = (⟨0, 0, some ("France", ⟨"cap", "https://x/i.png"⟩), false⟩ : QuizState).attempts + 1) :=
  ⟨⟨by decide,
    C8_score_attempts.1 initQuizState
      [QuizEvent.pick "France" ⟨"cap", "https://x/i.png"⟩,
       QuizEvent.submit "France", QuizEvent.next,
       QuizEvent.pick "Chad" ⟨"c2", "/i2.png"⟩,
       QuizEvent.submit "Peru"] (by decide)⟩,
   rfl, by decide,
   (C8_score_attempts.2.1 ⟨0, 0, some ("France", ⟨"cap", "https://x/i.png"⟩), false⟩
     "France" "France" ⟨"cap", "https://x/i.png"⟩ rfl (by decide)).1⟩

/-- C9: with duplicate-free keys, question selection reports the
empty-dataset condition exactly when no country has a meta with a non-empty
image reference; otherwise the produced question's country is one of the
eligible countries and its meta, drawn from that country's entry, has a
non-empty image reference. -/
theorem C9_question_selection (data : Dataset) (i j : Nat)
    (hnd : (data.map Prod.fst).Nodup) :
    (isEmptyReport (startQuiz data i j) = true ↔ availableCountries data = []) ∧
    (∀ c m, startQuiz data i j = QuizStart.question c m →
      c ∈ availableCountries data ∧ m.image_url ≠ "" ∧
      ∃ metas, dictGet? data c = some metas ∧ m ∈ metas) := by
  by_cases h1 : data.all (fun p => p.2.isEmpty) = true
  · have hav : availableCountries data = [] := allEmpty_available data h1
    have hq : startQuiz data i j = QuizStart.noMetas := by
      simp only [startQuiz]
      rw [if_pos h1]
    rw [hq]
    constructor
    · exact ⟨fun _ => hav, fun _ => rfl⟩
    · intro c m hcm
      simp at hcm
  · by_cases h2 : (availableCountries data).isEmpty = true
    · have hq : startQuiz data i j = QuizStart.noAvailable := by
        simp only [startQuiz]
        rw [if_neg h1, if_pos h2]
      rw [hq]
      constructor
      · constructor
        · intro _
          exact List.isEmpty_iff.mp h2
        · intro _
          rfl
      · intro c m hcm
        simp at hcm
    · have hlen : 0 < (availableCountries data).length := by
        cases hc : availableCountries data with
        | nil => rw [hc] at h2; exact absurd rfl h2
        | cons a t => simp
      have hq : startQuiz data i j = QuizStart.question
          ((availableCountries data).getD (i % (availableCountries data).length) "")
          ((validMetas ((dictGet? data
              ((availableCountries data).getD (i % (availableCountries data).length) "")).getD
                [])).getD
            (j % (validMetas ((dictGet? data
              ((availableCountries data).getD (i % (availableCountries data).length) "")).getD
                [])).length) ⟨"", ""⟩) := by
        simp only [startQuiz]
        rw [if_neg h1, if_neg h2]
      have hc0 : (availableCountries data).getD (i % (availableCountries data).length) ""
          ∈ availableCountries data :=
        getD_mem_of_lt _ _ "" (Nat.mod_lt _ hlen)
      obtain ⟨metas, hmet, hvne⟩ := available_sound data hnd _ hc0
      rw [hmet] at hq
      simp only [Option.getD_some] at hq
      have hvlen : 0 < (validMetas metas).length := by
        cases hv : validMetas metas with
        | nil => exact absurd hv hvne
        | cons a t => simp
      have hm0 : (validMetas metas).getD (j % (validMetas metas).length) ⟨"", ""⟩
          ∈ validMetas metas :=
        getD_mem_of_lt _ _ _ (Nat.mod_lt _ hvlen)
      rw [hq]
      constructor
      · constructor
        · intro hrep
          simp [isEmptyReport] at hrep
        · intro hav
          rw [hav] at hlen
          simp at hlen
      · intro c m hcm
        rw [QuizStart.question.injEq] at hcm
        obtain ⟨rfl, rfl⟩ := hcm.imp (fun h => h.symm) (fun h => h.symm)
        have hmm := (mem_validMetas metas _).mp hm0
        exact ⟨hc0, hmm.2, metas, hmet, hmm.1⟩

/-- C9 witness: a one-country dataset with one image-bearing meta. -/
theorem C9_question_selection_witness :
    (([("France", [⟨"cap", "https://x/i.png"⟩])] : Dataset).map Prod.fst).Nodup ∧
    (isEmptyReport (startQuiz [("France", [⟨"cap", "https://x/i.png"⟩])] 0 0) = true ↔
      availableCountries [("France", [⟨"cap", "https://x/i.png"⟩])] = []) :=
  ⟨by decide,
   (C9_question_selection [("France", [⟨"cap", "https://x/i.png"⟩])] 0 0 (by decide)).1⟩

/-- C10: a valid block whose image element has no `src` attribute is not
skipped and raises nothing — it yields a `Meta` with `image_url = ""`;
scraped metas are stored verbatim in the dataset; and a meta with an empty
image reference is excluded from quiz eligibility both at the country level
and within a country's metas. -/
theorem C10_missing_src :
    (∀ (b : Block) (a ta : Anchor),
       (detailAnchors b).find? (fun x => x.img.isSome) = some a →
       a.img = some { src := none } →
       (detailAnchors b).find? (fun x => x.img.isNone) = some ta →
       parseBlock b = some { meta := pyStripS ta.text, image_url := "" }) ∧
    (∀ (fetch : String → Except String (List Block)) (countries : List String)
       (c : String) (html : List Block),
       fetch (countryUrl c) = Except.ok html → c ∈ countries →
       dictGet? (scrape fetch countries) c = some (parse_country html)) ∧
    (∀ (data : Dataset) (p : String × List Meta), (data.map Prod.fst).Nodup →
       p ∈ data → (∀ m ∈ p.2, m.image_url = "") →
       p.1 ∉ availableCountries data) ∧
    (∀ (metas : List Meta) (m : Meta), m.image_url = "" → m ∉ validMetas metas) := by
  refine ⟨?_, ?_, ?_, ?_⟩
  · intro b a ta hfa himg hft
    simp only [parseBlock, hfa, hft]
    rw [himg]
    rfl
  · intro fetch countries c html hf hc
    have hres : countryResult fetch c = parse_country html := by
      unfold countryResult
      rw [hf]
    rw [scrape_get fetch countries c hc, hres]
  · intro data p hnd hp hall hmem
    obtain ⟨q, hqf, hq1⟩ := List.mem_map.mp hmem
    rw [List.mem_filter] at hqf
    obtain ⟨hqd, hpred⟩ := hqf
    have hpq : p = q := entries_eq_of_nodup data hnd p q hp hqd hq1.symm
    rw [Bool.and_eq_true] at hpred
    obtain ⟨m, hm, hmi⟩ := List.any_eq_true.mp hpred.2
    rw [← hpq] at hm
    have := hall m hm
    rw [this] at hmi
    simp at hmi
  · intro metas m hempty hmem
    have := (mem_validMetas metas m).mp hmem
    exact this.2 hempty

/-- C10 witness: a src-less image block parsed, and an empty-image meta shown
ineligible. -/
theorem C10_missing_src_witness :
    ((detailAnchors ⟨[⟨"/metas/detail/q", some ⟨none⟩, "pic"⟩,
        ⟨"/metas/detail/w", none, " Peru "⟩]⟩).find? (fun x => x.img.isSome) =
          some ⟨"/metas/detail/q", some ⟨none⟩, "pic"⟩ ∧
      (⟨"/metas/detail/q", some ⟨none⟩, "pic"⟩ : Anchor).img = some ⟨none⟩ ∧
      (detailAnchors ⟨[⟨"/metas/detail/q", some ⟨none⟩, "pic"⟩,
        ⟨"/metas/detail/w", none, " Peru "⟩]⟩).find? (fun x => x.img.isNone) =
          some ⟨"/metas/detail/w", none, " Peru "⟩) ∧
    parseBlock ⟨[⟨"/metas/detail/q", some ⟨none⟩, "pic"⟩,
      ⟨"/metas/detail/w", none, " Peru "⟩]⟩ = some ⟨"Peru", ""⟩ ∧
    (⟨"x", ""⟩ : Meta) ∉ validMetas [⟨"x", ""⟩] :=
  ⟨⟨by decide, rfl, by decide⟩,
   by
     have h := C10_missing_src.1
       ⟨[⟨"/metas/detail/q", some ⟨none⟩, "pic"⟩, ⟨"/metas/detail/w", none, " Peru "⟩]⟩
       ⟨"/metas/detail/q", some ⟨none⟩, "pic"⟩ ⟨"/metas/detail/w", none, " Peru "⟩
       (by decide) rfl (by decide)
     rw [h]
     decide,
   C10_missing_src.2.2.2 [⟨"x", ""⟩] ⟨"x", ""⟩ rfl⟩
